import Mathlib

/-
Verification of the adbpy fleet-dispatch layer.

The Python sources (adb.py, shell.py) are shallowly embedded below.
Python strings are modelled as lists of characters (`Str`); fallible
Python code returns `Except PyErr`; the thread pool used by the fleet
dispatcher is modelled by an explicit completion schedule (a list of
submission indices), so that theorems can quantify over every possible
completion order.
-/

namespace Adbpy

/-- Python strings are modelled as lists of characters. -/
abbrev Str := List Char

/-- Characters treated as whitespace by Python's str.strip. -/
def pyIsSpace (c : Char) : Bool :=
  c == ' ' || c == '\t' || c == '\n' || c == '\r' || c == '\x0b' || c == '\x0c'

/-- Python str.strip: remove whitespace from both ends. -/
def pyStrip (s : Str) : Str :=
  ((s.dropWhile pyIsSpace).reverse.dropWhile pyIsSpace).reverse

/-- Split a character list at every occurrence of `c` (Python str.split(c)).
The result is always non-empty; separators are consumed. -/
def splitOnChar (c : Char) : Str → List Str
  | [] => [[]]
  | a :: rest =>
    match splitOnChar c rest with
    | [] => [[]]
    | g :: gs => if a = c then [] :: g :: gs else (a :: g) :: gs

/-- Python c.join(parts): interleave the character `c` between the parts. -/
def joinWith (c : Char) : List Str → Str
  | [] => []
  | [l] => l
  | l :: l' :: ls => l ++ c :: joinWith c (l' :: ls)

/-- Python str.splitlines for LF-separated text: split on newline, with no
empty trailing element for a trailing newline. -/
def pySplitlines (s : Str) : List Str :=
  let parts := splitOnChar '\n' s
  match parts.getLast? with
  | some [] => parts.dropLast
  | _ => parts

/-- Python substring test (`needle in hay`). -/
def strContains (needle : Str) : Str → Bool
  | [] => needle.isEmpty
  | c :: t => needle.isPrefixOf (c :: t) || strContains needle t

/-- Python str.encode applied to content strings: the common escapes.
Backslash, newline, carriage return and tab are escaped; printable
characters (the only other characters exercised by the claims) are kept. -/
def pyUnicodeEscape (s : Str) : Str :=
  s.flatMap fun c =>
    if c = '\\' then ['\\', '\\']
    else if c = '\n' then ['\\', 'n']
    else if c = '\r' then ['\\', 'r']
    else if c = '\t' then ['\\', 't']
    else [c]

/-- Sequence a list of optional values, left to right. -/
def mapOpt (f : α → Option β) : List α → Option (List β)
  | [] => some []
  | a :: l =>
    match f a with
    | none => none
    | some b =>
      match mapOpt f l with
      | none => none
      | some bs => some (b :: bs)

/-- Map a fallible function over a list, stopping at the first error
(models a Python loop that raises on the first bad element). -/
def mapExcept (f : α → Except ε β) : List α → Except ε (List β)
  | [] => .ok []
  | a :: l =>
    match f a with
    | .error e => .error e
    | .ok b =>
      match mapExcept f l with
      | .error e => .error e
      | .ok bs => .ok (b :: bs)

/-- Collect a list of Except values, raising the first error in list order
(models a Python list comprehension over calls that may raise). -/
def seqExcept : List (Except ε α) → Except ε (List α)
  | [] => .ok []
  | .error e :: _ => .error e
  | .ok a :: l =>
    match seqExcept l with
    | .error e => .error e
    | .ok rest => .ok (a :: rest)

/-- One Python dict insertion: overwrite in place when the key is present
(keeping its position), append otherwise. -/
def pyDictInsert (m : List (Str × α)) (k : Str) (v : α) : List (Str × α) :=
  if k ∈ m.map Prod.fst then m.map fun p => if p.1 = k then (k, v) else p
  else m ++ [(k, v)]

/-- Python dict content built from a list of key/value pairs by successive
insertion: overwriting a present key keeps its position, a new key
appends. The association-list order here is insertion order, which fixes
the content (which key maps to which value) but not the Python 2
iteration order: a CPython 2 dict iterates in hash-slot order, modelled
separately by py2DictKeys below. -/
def pyDict (l : List (Str × α)) : List (Str × α) :=
  l.foldl (fun m p => pyDictInsert m p.1 p.2) []

/-- The CPython 2.7 string hash (64-bit build, hash randomization off,
stated on the unsigned 64-bit representative): x starts as the first byte
shifted left by 7; each byte folds in as x = 1000003*x XOR byte modulo
2^64; the length is XORed in; the reserved value -1 becomes -2. -/
def py2StringHash (s : Str) : Nat :=
  match s with
  | [] => 0
  | c0 :: _ =>
    let m64 := 18446744073709551616
    let x0 := (c0.toNat <<< 7) % m64
    let x := s.foldl (fun x c => ((1000003 * x) % m64) ^^^ c.toNat) x0
    let x := x ^^^ s.length
    if x = m64 - 1 then m64 - 2 else x

/-- The CPython 2.7 open-addressing probe loop over the initial 8-slot
table: i becomes 5*i + perturb + 1 modulo 2^64, the candidate slot is
i modulo 8, and perturb is shifted right by 5 bits each round; the fuel
bounds the loop (8 slots are found well within 64 probes). -/
def py2ProbeLoop (occ : List Nat) : Nat → Nat → Nat → Option Nat
  | _, _, 0 => none
  | i, perturb, fuel + 1 =>
    let i' := (5 * i + perturb + 1) % 18446744073709551616
    if i' % 8 ∈ occ then py2ProbeLoop occ i' (perturb / 32) fuel
    else some (i' % 8)

/-- The slot a new key lands in: its hash modulo 8 when that slot is
free, else the first free slot of the probe sequence. -/
def py2Slot (occ : List Nat) (h : Nat) : Option Nat :=
  if h % 8 ∈ occ then py2ProbeLoop occ (h % 8) h 64
  else some (h % 8)

/-- Slot assignment of a CPython 2.7 dict kept in its initial 8-slot
table, built by inserting the given pairs in order: faithful for up to
five distinct keys (a sixth insertion resizes the table, and a repeated
key would overwrite in place). -/
def py2DictSlots (pairs : List (Str × α)) : Option (List (Nat × Str)) :=
  pairs.foldl
    (fun acc p =>
      match acc with
      | none => none
      | some assigned =>
        match py2Slot (assigned.map Prod.fst) (py2StringHash p.1) with
        | none => none
        | some slot => some (assigned ++ [(slot, p.1)]))
    (some [])

/-- Key iteration order of a CPython 2.7 dict holding the given pairs:
the table slots are walked in ascending order. This hash-slot order, not
insertion order, is what dict.keys() and iteration expose under
Python 2. -/
def py2DictKeys (pairs : List (Str × α)) : Option (List Str) :=
  (py2DictSlots pairs).map fun assigned =>
    (List.range 8).filterMap fun slot =>
      (assigned.find? fun q => q.1 == slot).map Prod.snd

/-- Exceptions raised by the embedded code. `spawnError` is the OSError
raised by subprocess.Popen when the adb binary cannot be spawned (the
spec's SpawnError). -/
inductive PyErr
  | spawnError
  | typeError
  | valueError
  | indexError
  | exception
  | notImplementedError
  deriving DecidableEq, Repr

/-- Leading-slash count used by posixpath.normpath: POSIX keeps exactly two
leading slashes special; one or three-or-more collapse to one. -/
def initialSlashes (path : Str) : Nat :=
  if ['/'].isPrefixOf path then
    if ['/', '/'].isPrefixOf path && !(['/', '/', '/'].isPrefixOf path) then 2 else 1
  else 0

/-- One step of posixpath.normpath's component loop: skip empty and dot
components, keep other components, resolve dot-dot against the
accumulated components. `k` is the leading-slash count. -/
def normStep (k : Nat) (acc : List Str) (comp : Str) : List Str :=
  if comp = [] ∨ comp = ['.'] then acc
  else if comp ≠ ['.', '.'] ∨ (k = 0 ∧ acc = []) ∨ acc.getLast? = some ['.', '.'] then
    acc ++ [comp]
  else acc.dropLast

/-- The normalized component list of posixpath.normpath. -/
def normParts (path : Str) : List Str :=
  (splitOnChar '/' path).foldl (normStep (initialSlashes path)) []

/-- posixpath.normpath (CPython): collapse duplicate slashes, resolve '.'
and '..' components, keep the POSIX double-slash root. The Python source
delegates remote-path normalization to this stdlib function. -/
def normpath (path : Str) : Str :=
  if path = [] then ['.']
  else
    let p := List.replicate (initialSlashes path) '/' ++ joinWith '/' (normParts path)
    if p = [] then ['.'] else p

/-- The first line of adb.py's remotepath: strip the input and turn every
backslash into a forward slash. -/
def slashNormalize (remote : Str) : Str :=
  (pyStrip remote).map fun c => if c = '\\' then '/' else c

/-- adb.py remotepath: normalize a remote path, re-appending the path
separator when the stripped, slash-normalized input ended with one. -/
def remotepath (remote : Str) : Str :=
  let r := slashNormalize remote
  let r' := normpath r
  if r.getLast? = some '/' then r' ++ ['/'] else r'

/-- An OperationResult: the (stdout, stderr) pair of one process run. -/
abbrev OpResult := Str × Str

/-- adb.py adb_cmd's syscall string: the adb binary, an optional device
selector, an optional wait-for-device flag, then the argument. -/
def adb_cmd_syscall (arg : Str) (serialno : Option Str) (emulator wait : Bool) : Str :=
  let syscall := "adb.exe ".data
  let syscall :=
    match serialno with
    | some s =>
      if s ≠ [] then syscall ++ "-s ".data ++ s ++ [' ']
      else if emulator then syscall ++ "-e ".data else syscall
    | none => if emulator then syscall ++ "-e ".data else syscall
  let syscall := if wait then syscall ++ "wait-for-device ".data else syscall
  syscall ++ arg

/-- adb.py adb_cmd: build the syscall string and run it through the
process invoker `invoke` (sysprocess; may raise a spawn error). -/
def adb_cmd (invoke : Str → Except PyErr OpResult) (arg : Str) (serialno : Option Str)
    (emulator wait : Bool) : Except PyErr OpResult :=
  invoke (adb_cmd_syscall arg serialno emulator wait)

/-- AdbExecute's call method: adb_cmd with the executor's wait flag. -/
def AdbExecute.call (invoke : Str → Except PyErr OpResult) (wait : Bool) (arg : Str)
    (serialno : Option Str) : Except PyErr OpResult :=
  adb_cmd invoke arg serialno false wait

/-- Parse one device-list line for adb_devices: Python's ss.split(tab)
must yield exactly two fields, else dict() raises a ValueError. -/
def lineToPair (ss : Str) : Except PyErr (Str × Str) :=
  match splitOnChar '\t' ss with
  | [a, b] => .ok (a, b)
  | _ => .error .valueError

/-- The substring that marks an offline device. -/
def offlineStr : Str := "offline".data

/-- adb.py adb_devices, parsing stage: `stdout` is the raw output of the
'adb devices' invocation. The first line is dropped unconditionally;
when onlineonly is set, lines containing "offline" are filtered out;
the remaining tab-separated lines become a dict. -/
def adb_devices (stdout : Str) (onlineonly : Bool) : Except PyErr (List (Str × Str)) :=
  let deviceliststr := (pySplitlines (pyStrip stdout)).drop 1
  let deviceliststr :=
    if onlineonly then deviceliststr.filter (fun l => !(strContains offlineStr l))
    else deviceliststr
  match mapExcept lineToPair deviceliststr with
  | .error e => .error e
  | .ok pairs => .ok (pyDict pairs)

/-- The serialnos argument of adb_serialnos: Python allows None, a single
serial number, or a tuple/list of serial numbers. -/
inductive SerialArg
  | noneArg
  | scalar (s : Str)
  | listArg (l : List Str)
  deriving DecidableEq

/-- adb.py adb_serialnos: pass explicit serial numbers through (a scalar
is wrapped in a list); a falsy argument (None, empty string, empty list)
falls back to the keys of the device enumeration. `devices` is the
mapping returned by AdbExecute.devices(). -/
def adb_serialnos (serialnos : SerialArg) (devices : List (Str × Str)) : List Str :=
  match serialnos with
  | .noneArg => devices.map Prod.fst
  | .scalar s => if s = [] then devices.map Prod.fst else [s]
  | .listArg l => if l = [] then devices.map Prod.fst else l

/-- AdbMultiExecute's call method (the fleet dispatcher): resolve targets,
submit one task per serial number to the thread pool, wait for all of
them, collect each task's own result in submission order (get() re-raises
a task's exception), and zip the serial numbers with the results into a
dict. `schedule` lists the indices of the tasks the pool has completed,
in completion order: a task's slot holds its own result once the task has
run, whatever the order; `none` models a barrier that never ends. -/
def AdbMultiExecute.call (invoke : Str → Except PyErr OpResult) (wait : Bool) (arg : Str)
    (serialnos : SerialArg) (devices : List (Str × Str)) (schedule : List Nat) :
    Option (Except PyErr (List (Str × OpResult))) :=
  let ids := adb_serialnos serialnos devices
  let res := ids.enum
  let out? := mapOpt
    (fun h => if h.1 ∈ schedule then some (AdbExecute.call invoke wait arg (some h.2)) else none)
    res
  match out? with
  | none => none
  | some outs =>
    match seqExcept outs with
    | .error e => some (.error e)
    | .ok out => some (.ok (pyDict (ids.zip out)))

/-- The state of an Adb fleet handle: its scoping serialnos attribute and
the device mapping a fresh enumeration through its executor would
return (consulted by iteration, not by len). -/
structure AdbHandle where
  serialnos : SerialArg
  devices : List (Str × Str)

/-- Adb's len method: Python len(self.serialnos). len(None) raises a
TypeError; len of a single serial-number string counts its characters. -/
def Adb.len (a : AdbHandle) : Except PyErr Nat :=
  match a.serialnos with
  | .noneArg => .error .typeError
  | .scalar s => .ok s.length
  | .listArg l => .ok l.length

/-- adb.py get_all_adb_serialno: the serial numbers of all attached
devices (adb_serialnos with serialnos=None). -/
def get_all_adb_serialno (devices : List (Str × Str)) : List Str :=
  adb_serialnos .noneArg devices

/-- adb.py get_one_adb_serialno: the serial number of the only attached
device; raises when more than one is attached, IndexError when none. -/
def get_one_adb_serialno (devices : List (Str × Str)) : Except PyErr Str :=
  let serialnos := get_all_adb_serialno devices
  if serialnos.length > 1 then .error .exception
  else
    match serialnos with
    | [] => .error .indexError
    | s :: _ => .ok s

/-- The keyword arguments threaded through the Shell layer. The claims
exercise the superuser and login keys; Shell.su binds login as a named
parameter, every other method forwards kwargs untouched. -/
structure Kwargs where
  superuser : Option Bool
  login : Option Str
  deriving DecidableEq

/-- Empty keyword arguments. -/
def Kwargs.empty : Kwargs := ⟨none, none⟩

/-- ShellExecutor's call method for an executor whose superuser attribute
is False: self.adb.shell(arg), the kwargs are dropped. The modelled
observable is the shell command string handed to Adb.shell (and thus to
the fleet dispatcher). -/
def ShellExecutor.callPlain (arg : Str) (kwargs : Kwargs) : Except PyErr Str :=
  let _ := kwargs
  .ok arg

/-- Shell.su as invoked on the fresh Shell(self.adb) built inside
ShellExecutor's superuser branch: that Shell wraps a new ShellExecutor
whose superuser attribute defaults to False. login is bound from the
kwargs; a non-None login raises NotImplementedError. -/
def Shell.suFresh (command : Option Str) (kwargs : Kwargs) : Except PyErr Str :=
  match kwargs.login with
  | some _ => .error .notImplementedError
  | none =>
    let su := "su ".data
    let su :=
      match command with
      | some c => su ++ "-c ".data ++ c
      | none => su
    ShellExecutor.callPlain su ⟨kwargs.superuser, none⟩

/-- ShellExecutor's call method: the branch is chosen by the superuser
attribute fixed at construction; the per-call kwargs are forwarded to
Shell.su in the superuser branch and dropped in the other. The result is
the shell command string handed to Adb.shell. -/
def ShellExecutor.call (superuser : Bool) (arg : Str) (kwargs : Kwargs) : Except PyErr Str :=
  if superuser then Shell.suFresh (some arg) kwargs
  else .ok arg

/-- Shell.execute: delegate to the wrapped executor. `superuser` is the
executor's construction-time attribute. -/
def Shell.execute (superuser : Bool) (arg : Str) (kwargs : Kwargs) : Except PyErr Str :=
  ShellExecutor.call superuser arg kwargs

/-- Shell.echo: build an echo command around the escaped content, forcing
the superuser kwarg to False before executing. -/
def Shell.echo (superuser : Bool) (content : Str) (kwargs : Kwargs) : Except PyErr Str :=
  Shell.execute superuser
    ("echo ".data ++ '\'' :: (pyUnicodeEscape content ++ ['\'']))
    ⟨some false, kwargs.login⟩

/-- Shell.redirect: an echo command redirected into a remote file, with
the superuser kwarg forced to False before executing. -/
def Shell.redirect (superuser : Bool) (content remote : Str) (append : Bool)
    (kwargs : Kwargs) : Except PyErr Str :=
  let redirect := "echo ".data ++ '\'' :: (pyUnicodeEscape content ++ "' >".data)
  let redirect := if append then redirect ++ ['>'] else redirect
  let remote_ := remotepath remote
  Shell.execute superuser (redirect ++ ' ' :: '\'' :: (remote_ ++ ['\'']))
    ⟨some false, kwargs.login⟩

/-- Shell.cat: a cat command on the normalized remote path, kwargs
forwarded untouched (a representative ordinary Shell operation). -/
def Shell.cat (superuser : Bool) (remote : Str) (kwargs : Kwargs) : Except PyErr Str :=
  Shell.execute superuser ("cat ".data ++ '\'' :: (remotepath remote ++ ['\''])) kwargs

/-- The identifier-TAB-status line of one device-list entry. -/
def lineOf (p : Str × Str) : Str := p.1 ++ '\t' :: p.2

/-- The header line of 'adb devices' output. -/
def headerStr : Str := "List of devices attached".data

/-- Raw device-list output whose lines after the header are
identifier-TAB-status pairs. -/
def deviceListing (pairs : List (Str × Str)) : Str :=
  joinWith '\n' (headerStr :: pairs.map lineOf)

/-! General lemmas about the helper functions. -/

theorem mapOpt_eq_some {f : α → Option β} {g : α → β} :
    ∀ {l : List α}, (∀ a ∈ l, f a = some (g a)) → mapOpt f l = some (l.map g)
  | [], _ => rfl
  | a :: l, h => by
    have ha := h a (List.mem_cons_self a l)
    have ih := mapOpt_eq_some (f := f) (g := g) (l := l) fun x hx => h x (List.mem_cons_of_mem a hx)
    simp [mapOpt, ha, ih]

theorem seqExcept_map_ok {ε : Type} (g : α → β) :
    ∀ l : List α, seqExcept (ε := ε) (l.map fun a => Except.ok (g a)) = .ok (l.map g)
  | [] => rfl
  | a :: l => by simp [seqExcept, seqExcept_map_ok (ε := ε) g l]

theorem seqExcept_append_error {ε : Type} (g : α → β) (e : ε) (l₂ : List (Except ε β)) :
    ∀ l₁ : List α,
      seqExcept ((l₁.map fun a => Except.ok (g a)) ++ Except.error e :: l₂) = .error e
  | [] => rfl
  | a :: l₁ => by simp [seqExcept, seqExcept_append_error g e l₂ l₁]

theorem zip_self_map (l : List α) (g : α → β) :
    l.zip (l.map g) = l.map fun a => (a, g a) := by
  conv_lhs => rw [show l.zip (l.map g) = (l.map id).zip (l.map g) by simp]
  rw [List.zip_map']
  rfl

theorem pyDictInsert_of_not_mem {m : List (Str × α)} {k : Str} (v : α)
    (h : k ∉ m.map Prod.fst) : pyDictInsert m k v = m ++ [(k, v)] := by
  simp [pyDictInsert, h]

theorem pyDict_go_of_nodup {l : List (Str × α)} :
    ∀ acc : List (Str × α), ((acc ++ l).map Prod.fst).Nodup →
      l.foldl (fun m p => pyDictInsert m p.1 p.2) acc = acc ++ l := by
  induction l with
  | nil => intro acc _; simp
  | cons p t ih =>
    intro acc h
    have hk : p.1 ∉ acc.map Prod.fst := by
      simp only [List.map_append, List.map_cons, List.nodup_append] at h
      intro hmem
      exact absurd (List.mem_cons_self p.1 (t.map Prod.fst)) (h.2.2 hmem)
    have hins : pyDictInsert acc p.1 p.2 = acc ++ [(p.1, p.2)] := pyDictInsert_of_not_mem p.2 hk
    simp only [List.foldl_cons, hins]
    rw [ih (acc ++ [(p.1, p.2)]) (by simpa using h)]
    simp

theorem pyDict_of_nodup {l : List (Str × α)} (h : (l.map Prod.fst).Nodup) :
    pyDict l = l := by
  simpa using pyDict_go_of_nodup (l := l) [] (by simpa using h)

/-- Evaluation of the fleet dispatcher on an explicit non-empty target list
under any schedule that completes every submitted task: the output is the
submission-order sequence of each task's own result, zipped with the
targets. -/
theorem dispatch_eval (invoke : Str → Except PyErr OpResult) (wait : Bool) (arg : Str)
    (ids : List Str) (devices : List (Str × Str)) (schedule : List Nat)
    (hne : ids ≠ []) (hcov : ∀ i < ids.length, i ∈ schedule) :
    AdbMultiExecute.call invoke wait arg (.listArg ids) devices schedule
      = some ((seqExcept (ids.map fun s => AdbExecute.call invoke wait arg (some s))).map
          fun out => pyDict (ids.zip out)) := by
  have hids : adb_serialnos (.listArg ids) devices = ids := by
    simp [adb_serialnos, hne]
  have htask : ∀ h ∈ ids.enum,
      (if h.1 ∈ schedule then some (AdbExecute.call invoke wait arg (some h.2)) else none)
        = some ((fun h : Nat × Str => AdbExecute.call invoke wait arg (some h.2)) h) := by
    intro h hmem
    have hget : ids[h.1]? = some h.2 := List.mem_enum_iff_getElem?.mp hmem
    have hlt : h.1 < ids.length := (List.getElem?_eq_some.mp hget).1
    rw [if_pos (hcov h.1 hlt)]
  have hmap : ids.enum.map (fun h : Nat × Str => AdbExecute.call invoke wait arg (some h.2))
      = ids.map fun s => AdbExecute.call invoke wait arg (some s) := by
    rw [show (fun h : Nat × Str => AdbExecute.call invoke wait arg (some h.2))
        = (fun s => AdbExecute.call invoke wait arg (some s)) ∘ Prod.snd from rfl]
    rw [← List.map_map, List.enum_map_snd]
  simp only [AdbMultiExecute.call, hids, mapOpt_eq_some htask, hmap]
  cases hseq : seqExcept (ids.map fun s => AdbExecute.call invoke wait arg (some s)) <;>
    simp [Except.map]

/-! Lemmas about splitting, joining, stripping and line parsing. -/

theorem splitOnChar_ne_nil (c : Char) (s : Str) : splitOnChar c s ≠ [] := by
  cases s with
  | nil => simp [splitOnChar]
  | cons a rest =>
    simp only [splitOnChar]
    split
    · simp
    · split <;> simp

theorem splitOnChar_eq_single {c : Char} : ∀ {s : Str}, c ∉ s → splitOnChar c s = [s]
  | [], _ => rfl
  | a :: rest, h => by
    have hac : ¬(a = c) := fun hh => h (hh ▸ List.mem_cons_self a rest)
    have ih := splitOnChar_eq_single (c := c) (s := rest) fun hh => h (List.mem_cons_of_mem a hh)
    simp only [splitOnChar, ih]
    simp [if_neg hac]

theorem splitOnChar_append_cons {c : Char} (r : Str) :
    ∀ {f : Str}, c ∉ f → splitOnChar c (f ++ c :: r) = f :: splitOnChar c r
  | [], _ => by
    simp only [List.nil_append, splitOnChar]
    cases h : splitOnChar c r with
    | nil => exact absurd h (splitOnChar_ne_nil c r)
    | cons g gs => simp
  | a :: f, h => by
    have hac : ¬(a = c) := fun hh => h (hh ▸ List.mem_cons_self a f)
    have ih := splitOnChar_append_cons (c := c) r (f := f) fun hh => h (List.mem_cons_of_mem a hh)
    show splitOnChar c (a :: (f ++ c :: r)) = (a :: f) :: splitOnChar c r
    simp only [splitOnChar]
    rw [ih]
    simp [if_neg hac]

theorem mem_splitOnChar {c : Char} : ∀ {s g : Str}, g ∈ splitOnChar c s → c ∉ g := by
  intro s
  induction s with
  | nil => intro g hg; simp [splitOnChar] at hg; simp [hg]
  | cons a rest ih =>
    intro g hg
    rcases hsplit : splitOnChar c rest with _ | ⟨g', gs⟩
    · exact absurd hsplit (splitOnChar_ne_nil c rest)
    · simp only [splitOnChar, hsplit] at hg
      by_cases hac : a = c
      · rw [if_pos hac] at hg
        rcases List.mem_cons.mp hg with h | h
        · simp [h]
        · exact ih (hsplit ▸ h)
      · rw [if_neg hac] at hg
        rcases List.mem_cons.mp hg with h | h
        · subst h
          intro hmem
          rcases List.mem_cons.mp hmem with h' | h'
          · exact hac h'.symm
          · exact ih (hsplit ▸ List.mem_cons_self g' gs) h'
        · exact ih (hsplit ▸ List.mem_cons_of_mem g' h)

theorem splitOnChar_joinWith {c : Char} :
    ∀ {L : List Str}, L ≠ [] → (∀ l ∈ L, c ∉ l) → splitOnChar c (joinWith c L) = L
  | [], h, _ => absurd rfl h
  | [l], _, hL => by
    simp only [joinWith]
    exact splitOnChar_eq_single (hL l (List.mem_cons_self l []))
  | l :: l' :: ls, _, hL => by
    have ih := splitOnChar_joinWith (L := l' :: ls) (by simp)
      fun x hx => hL x (List.mem_cons_of_mem l hx)
    simp only [joinWith]
    rw [splitOnChar_append_cons _ (hL l (List.mem_cons_self l (l' :: ls)))]
    rw [ih]

theorem joinWith_ne_nil {c : Char} :
    ∀ {L : List Str}, L ≠ [] → (∀ l ∈ L, l ≠ []) → joinWith c L ≠ []
  | [], h, _ => absurd rfl h
  | [l], _, hL => by simpa [joinWith] using hL l (List.mem_cons_self l [])
  | l :: l' :: ls, _, _ => by simp [joinWith]

theorem joinWith_head? {c : Char} :
    ∀ {L : List Str} {l : Str}, L.head? = some l → l ≠ [] → (joinWith c L).head? = l.head?
  | [l], _, h, _ => by simp_all [joinWith]
  | l :: l' :: ls, x, h, hne => by
    have hx : x = l := by simp_all
    subst hx
    cases x with
    | nil => exact absurd rfl hne
    | cons y ys => simp [joinWith, List.head?_append, Option.or]

theorem joinWith_getLast? {c : Char} :
    ∀ {L : List Str}, (∀ l ∈ L, l ≠ []) → ∀ {t : Str}, L.getLast? = some t →
      (joinWith c L).getLast? = t.getLast?
  | [l], _, t, h => by simp_all [joinWith]
  | l :: l' :: ls, hne, t, h => by
    have ih := joinWith_getLast? (c := c) (L := l' :: ls)
      (fun x hx => hne x (List.mem_cons_of_mem l hx)) (t := t) (by simpa using h)
    have hjoin : joinWith c (l' :: ls) ≠ [] :=
      joinWith_ne_nil (by simp) fun x hx => hne x (List.mem_cons_of_mem l hx)
    simp only [joinWith, List.getLast?_append]
    rw [← ih]
    cases hj : joinWith c (l' :: ls) with
    | nil => exact absurd hj hjoin
    | cons y ys => simp [List.getLast?_cons, Option.or]

theorem pySplitlines_joinWith {L : List Str} (hnl : ∀ l ∈ L, '\n' ∉ l)
    (hlast : L.getLast? ≠ some []) : pySplitlines (joinWith '\n' L) = L := by
  cases hL : L with
  | nil => rfl
  | cons l ls =>
    have hsplit : splitOnChar '\n' (joinWith '\n' (l :: ls)) = l :: ls :=
      splitOnChar_joinWith (by simp) (hL ▸ hnl)
    simp only [pySplitlines, hsplit]
    split
    · next heq => exact absurd (hL ▸ heq) hlast
    · rfl

theorem dropWhile_eq_self_of_head {p : Char → Bool} {s : Str}
    (h : ∀ c, s.head? = some c → p c = false) : s.dropWhile p = s := by
  cases s with
  | nil => rfl
  | cons a t => simp [List.dropWhile_cons, h a rfl]

theorem pyStrip_eq_self {s : Str}
    (h1 : ∀ c, s.head? = some c → pyIsSpace c = false)
    (h2 : ∀ c, s.getLast? = some c → pyIsSpace c = false) : pyStrip s = s := by
  unfold pyStrip
  rw [dropWhile_eq_self_of_head h1]
  rw [dropWhile_eq_self_of_head (by simpa using h2)]
  exact List.reverse_reverse s

theorem lineOf_ne_nil (p : Str × Str) : lineOf p ≠ [] := by
  simp [lineOf]

theorem lineToPair_lineOf {p : Str × Str} (h1 : '\t' ∉ p.1) (h2 : '\t' ∉ p.2) :
    lineToPair (lineOf p) = .ok p := by
  unfold lineToPair lineOf
  rw [splitOnChar_append_cons _ h1, splitOnChar_eq_single h2]

theorem mapExcept_lineOf : ∀ {ps : List (Str × Str)},
    (∀ p ∈ ps, '\t' ∉ p.1 ∧ '\t' ∉ p.2) →
      mapExcept lineToPair (ps.map lineOf) = .ok ps
  | [], _ => rfl
  | p :: ps, h => by
    have hp := h p (List.mem_cons_self p ps)
    have ih : mapExcept lineToPair (ps.map lineOf) = .ok ps :=
      mapExcept_lineOf fun x hx => h x (List.mem_cons_of_mem p hx)
    simp [mapExcept, lineToPair_lineOf hp.1 hp.2, ih]

/-- The raw device-list text of a well-formed line list round-trips through
strip and splitlines unchanged. -/
theorem parse_lines {L : List Str}
    (hne : ∀ l ∈ L, l ≠ [])
    (hnl : ∀ l ∈ L, '\n' ∉ l)
    (hhead : ∀ l, L.head? = some l → ∀ c, l.head? = some c → pyIsSpace c = false)
    (hlast : ∀ l, L.getLast? = some l → ∀ c, l.getLast? = some c → pyIsSpace c = false) :
    pySplitlines (pyStrip (joinWith '\n' L)) = L := by
  cases hL : L with
  | nil => rfl
  | cons l ls =>
    subst hL
    have hl : l ≠ [] := hne l (List.mem_cons_self l ls)
    have hdj : (joinWith '\n' (l :: ls)).head? = l.head? := joinWith_head? rfl hl
    obtain ⟨t, ht⟩ : ∃ t, (l :: ls).getLast? = some t :=
      ⟨(l :: ls).getLast (by simp), List.getLast?_eq_getLast _ (by simp)⟩
    have hgj : (joinWith '\n' (l :: ls)).getLast? = t.getLast? := joinWith_getLast? hne ht
    have hstrip : pyStrip (joinWith '\n' (l :: ls)) = joinWith '\n' (l :: ls) := by
      refine pyStrip_eq_self (fun c hc => ?_) (fun c hc => ?_)
      · exact hhead l rfl c (hdj ▸ hc)
      · exact hlast t ht c (hgj ▸ hc)
    rw [hstrip]
    refine pySplitlines_joinWith hnl ?_
    rw [ht]
    intro hcontra
    have : t = [] := by injection hcontra
    exact hne t (List.mem_of_getLast?_eq_some ht) this

theorem lineOf_head? {p : Str × Str} (h1 : p.1 ≠ []) : (lineOf p).head? = p.1.head? := by
  unfold lineOf
  cases hp : p.1 with
  | nil => exact absurd hp h1
  | cons y ys => simp [List.head?_append, Option.or]

theorem lineOf_getLast? {p : Str × Str} (h2 : p.2 ≠ []) :
    (lineOf p).getLast? = p.2.getLast? := by
  unfold lineOf
  cases hp : p.2 with
  | nil => exact absurd hp h2
  | cons y ys =>
    rw [List.getLast?_append, List.getLast?_cons_cons]
    rw [List.getLast?_eq_getLast (y :: ys) (by simp)]
    simp [Option.or]

theorem tab_not_mem_of_nonspace {s : Str} (h : ∀ c ∈ s, pyIsSpace c = false) : '\t' ∉ s :=
  fun hmem => by simpa [pyIsSpace] using h '\t' hmem

theorem newline_not_mem_lineOf {p : Str × Str}
    (h1 : ∀ c ∈ p.1, pyIsSpace c = false) (h2 : ∀ c ∈ p.2, pyIsSpace c = false) :
    '\n' ∉ lineOf p := by
  intro hmem
  unfold lineOf at hmem
  rcases List.mem_append.mp hmem with h | h
  · simpa [pyIsSpace] using h1 '\n' h
  · rcases List.mem_cons.mp h with h' | h'
    · exact absurd h' (by decide)
    · simpa [pyIsSpace] using h2 '\n' h'

/-! Lemmas about the structure of posixpath.normpath results. -/

theorem normStep_foldl_inv (k : Nat) :
    ∀ (comps : List Str) (acc : List Str),
      (∀ l ∈ acc, l ≠ [] ∧ '/' ∉ l) → (∀ l ∈ comps, '/' ∉ l) →
      ∀ l ∈ comps.foldl (normStep k) acc, l ≠ [] ∧ '/' ∉ l
  | [], acc, hacc, _ => hacc
  | comp :: comps, acc, hacc, hcomps => by
    refine normStep_foldl_inv k comps (normStep k acc comp) ?_
      (fun l hl => hcomps l (List.mem_cons_of_mem comp hl))
    intro l hl
    unfold normStep at hl
    split at hl
    · exact hacc l hl
    · split at hl
      · rcases List.mem_append.mp hl with h | h
        · exact hacc l h
        · have hlc : l = comp := by simpa using h
          subst hlc
          next hguard _ =>
          refine ⟨fun hnil => hguard (Or.inl hnil), hcomps l (List.mem_cons_self l comps)⟩
      · exact hacc l (List.dropLast_subset acc hl)

theorem normParts_inv (path : Str) : ∀ l ∈ normParts path, l ≠ [] ∧ '/' ∉ l :=
  normStep_foldl_inv (initialSlashes path) (splitOnChar '/' path) [] (by simp)
    (fun l hl => mem_splitOnChar hl)

theorem initialSlashes_le (path : Str) : initialSlashes path ≤ 2 := by
  unfold initialSlashes
  split
  · split <;> simp
  · simp

/-- A normalized path ends with a slash exactly when it is one of the two
root paths: every non-root normalized path ends with the last character of
its last component, which is slash-free. -/
theorem normpath_getLast?_slash_iff (x : Str) :
    (normpath x).getLast? = some '/' ↔ normpath x = ['/'] ∨ normpath x = ['/', '/'] := by
  by_cases hx : x = []
  · subst hx
    simp [normpath]
  · unfold normpath
    rw [if_neg hx]
    by_cases hp : normParts x = []
    · rw [hp]
      have hk := initialSlashes_le x
      interval_cases h : initialSlashes x <;> simp [joinWith, List.replicate]
    · have hinv := normParts_inv x
      have hjoin_ne : joinWith '/' (normParts x) ≠ [] :=
        joinWith_ne_nil hp fun l hl => (hinv l hl).1
      obtain ⟨t, ht⟩ : ∃ t, (normParts x).getLast? = some t :=
        ⟨(normParts x).getLast hp, List.getLast?_eq_getLast _ hp⟩
      have htmem := List.mem_of_getLast?_eq_some ht
      have htne : t ≠ [] := (hinv t htmem).1
      have hjoin_last : (joinWith '/' (normParts x)).getLast? = t.getLast? :=
        joinWith_getLast? (fun l hl => (hinv l hl).1) ht
      obtain ⟨ch, hch⟩ : ∃ ch, t.getLast? = some ch :=
        ⟨t.getLast htne, List.getLast?_eq_getLast _ htne⟩
      have hchmem := List.mem_of_getLast?_eq_some hch
      have hchne : ch ≠ '/' := fun h => (hinv t htmem).2 (h ▸ hchmem)
      have hplast : (List.replicate (initialSlashes x) '/' ++ joinWith '/' (normParts x)).getLast?
          = some ch := by
        rw [List.getLast?_append, hjoin_last, hch]
        rfl
      have hpne : List.replicate (initialSlashes x) '/' ++ joinWith '/' (normParts x) ≠ [] := by
        simp [hjoin_ne]
      rw [if_neg hpne]
      constructor
      · intro h
        rw [hplast] at h
        injection h with h
        exact absurd h hchne
      · intro h
        rcases h with h | h <;>
        · rw [h] at hplast
          simp at hplast
          exact absurd hplast.symm hchne

/-! Claim theorems. -/

/-- C1 counterexample: on the target sequence [ABC123, DEF456] the
dispatcher builds its dict from the pairs in target order, but the
CPython 2 dict holding exactly those pairs iterates its keys in
hash-slot order [DEF456, ABC123], which differs from the target order:
the claimed key-iteration-order guarantee is not provided by the
Python 2 runtime the code targets. -/
theorem dispatch_key_order_cex :
    AdbMultiExecute.call (fun _ => .ok ([], [])) false "x".data
        (.listArg ["ABC123".data, "DEF456".data]) [] [0, 1]
      = some (.ok [("ABC123".data, ([], [])), ("DEF456".data, ([], []))]) ∧
    py2DictKeys [("ABC123".data, (([], []) : OpResult)), ("DEF456".data, ([], []))]
      = some ["DEF456".data, "ABC123".data] ∧
    (["DEF456".data, "ABC123".data] : List Str) ≠ ["ABC123".data, "DEF456".data] := by
  refine ⟨rfl, by decide, by decide⟩

/-- C1 amended: for every non-empty resolved target sequence of distinct
identifiers and every command, the dispatcher returns a fleet result
whose entries are exactly the pairs of each identifier with the result of
that identifier's own invocation, regardless of the order in which the
pool completes the individual invocations (the schedule is arbitrary
among those that complete every task); the mapping's key iteration order
is the Python 2 dict's hash-slot order, not the target order. -/
theorem dispatch_pairs_each_id_with_own_result (invoke : Str → Except PyErr OpResult)
    (wait : Bool) (arg : Str) (ids : List Str) (devices : List (Str × Str))
    (schedule : List Nat) (g : Str → OpResult)
    (hne : ids ≠ []) (hnd : ids.Nodup)
    (hok : ∀ s ∈ ids, AdbExecute.call invoke wait arg (some s) = .ok (g s))
    (hcov : ∀ i < ids.length, i ∈ schedule) :
    ∃ m, AdbMultiExecute.call invoke wait arg (.listArg ids) devices schedule
        = some (.ok m) ∧
      m.Perm (ids.map fun s => (s, g s)) ∧ ∀ s ∈ ids, (s, g s) ∈ m := by
  refine ⟨ids.map fun s => (s, g s), ?_, List.Perm.refl _,
    fun s hs => List.mem_map_of_mem _ hs⟩
  rw [dispatch_eval invoke wait arg ids devices schedule hne hcov]
  rw [List.map_congr_left hok, seqExcept_map_ok]
  simp only [Except.map]
  rw [zip_self_map, pyDict_of_nodup (by simpa [List.map_map, Function.comp_def] using hnd)]

/-- Witness for the amended C1: two devices dispatched under a schedule
that completes the second submission first still yield a fleet result
holding exactly each device's own result. -/
theorem dispatch_pairs_each_id_with_own_result_witness :
    ∃ m, AdbMultiExecute.call (fun _ => .ok ([], [])) false "devices".data
        (.listArg ["A".data, "B".data]) [] [1, 0] = some (.ok m) ∧
      m.Perm [("A".data, ([], [])), ("B".data, ([], []))] ∧
      ∀ s ∈ (["A".data, "B".data] : List Str), (s, (([], []) : OpResult)) ∈ m := by
  have h := dispatch_pairs_each_id_with_own_result (fun _ => .ok ([], [])) false "devices".data
    ["A".data, "B".data] [] [1, 0] (fun _ => ([], []))
    (by decide) (by decide) (fun s _ => rfl) (by decide)
  exact h

/-- C2 counterexample: with two devices and the first invocation raising a
spawn error, the dispatch call raises (returns the error) instead of
returning a fleet result that reports the failure as data. -/
theorem dispatch_single_spawn_error_raises_cex :
    AdbMultiExecute.call (fun s => if 'A' ∈ s then .error .spawnError else .ok ([], []))
        false "x".data (.listArg ["A".data, "B".data]) [] [0, 1]
      = some (.error .spawnError) := by
  rfl

/-- C2 amended: when one device's invocation raises a spawn error (all
earlier submissions succeeding), the dispatch call raises that error after
the barrier instead of returning a fleet result; sibling invocations still
run, but their results are discarded. -/
theorem dispatch_propagates_first_spawn_error (invoke : Str → Except PyErr OpResult)
    (wait : Bool) (arg : Str) (pre post : List Str) (bad : Str)
    (devices : List (Str × Str)) (schedule : List Nat) (g : Str → OpResult) (e : PyErr)
    (hok : ∀ s ∈ pre, AdbExecute.call invoke wait arg (some s) = .ok (g s))
    (hbad : AdbExecute.call invoke wait arg (some bad) = .error e)
    (hcov : ∀ i < (pre ++ bad :: post).length, i ∈ schedule) :
    AdbMultiExecute.call invoke wait arg (.listArg (pre ++ bad :: post)) devices schedule
      = some (.error e) := by
  have hne : pre ++ bad :: post ≠ [] := by simp
  rw [dispatch_eval invoke wait arg (pre ++ bad :: post) devices schedule hne hcov]
  rw [List.map_append, List.map_cons, hbad, List.map_congr_left hok,
    seqExcept_append_error]
  rfl

/-- Witness for the amended C2: a concrete two-device dispatch whose second
submission fails to spawn propagates the spawn error. -/
theorem dispatch_propagates_first_spawn_error_witness :
    AdbMultiExecute.call (fun s => if 'A' ∈ s then .error .spawnError else .ok ([], []))
        false "x".data (.listArg ["B".data, "A".data]) [] [0, 1]
      = some (.error .spawnError) := by
  have h := dispatch_propagates_first_spawn_error
    (fun s => if 'A' ∈ s then .error .spawnError else .ok ([], [])) false "x".data
    ["B".data] [] "A".data [] [0, 1] (fun _ => ([], [])) .spawnError
    (by intro s hs; rw [List.mem_singleton] at hs; subst hs; rfl) rfl (by decide)
  exact h

/-- C3 counterexample: with targets absent and the enumeration empty, the
dispatch call returns an empty fleet result instead of failing with an
enumeration error. -/
theorem dispatch_empty_enumeration_cex :
    AdbMultiExecute.call (fun _ => .ok ([], [])) false "x".data .noneArg [] []
      = some (.ok []) := rfl

/-- C3 amended: for every command, when targets are absent and the device
enumerator resolves to an empty set, dispatch silently returns an empty
fleet result; no error of any kind is raised. -/
theorem dispatch_empty_enumeration_returns_empty (invoke : Str → Except PyErr OpResult)
    (wait : Bool) (arg : Str) (schedule : List Nat) :
    AdbMultiExecute.call invoke wait arg .noneArg [] schedule = some (.ok []) := rfl

/-- C4: evaluating the code at the failing input. With a shell executor
constructed with superuser set, echo and redirect do get wrapped in
su dash c even though both force the per-call superuser keyword to False
(the executor never reads that keyword), contradicting the in-code comment
that su must always be False for echo. -/
theorem echo_redirect_wrapped_when_executor_superuser :
    Shell.echo true "hi".data Kwargs.empty = .ok "su -c echo 'hi'".data ∧
    Shell.redirect true "hi".data "/x".data false Kwargs.empty
      = .ok "su -c echo 'hi' > '/x'".data := by
  exact ⟨rfl, rfl⟩

/-- C5 counterexample: an unscoped fleet handle (serialnos None) with one
attached device raises a TypeError from len(None) instead of returning
the enumeration size; and a handle scoped to the single device ABC123 (a
bare serial-number string, as Adb indexing produces) returns 6, the
identifier's character count, not the scoped set's size 1. -/
theorem adb_len_cex :
    Adb.len ⟨.noneArg, [("A".data, "device".data)]⟩ = .error .typeError ∧
    Adb.len ⟨.noneArg, [("A".data, "device".data)]⟩ ≠ .ok 1 ∧
    Adb.len ⟨.scalar "ABC123".data, []⟩ = .ok 6 ∧
    Adb.len ⟨.scalar "ABC123".data, []⟩ ≠ .ok 1 := by
  refine ⟨rfl, fun h => Except.noConfusion h, rfl, fun h => ?_⟩
  injection h with h
  exact absurd h (by decide)

/-- C5 amended: len returns the length of the scoped device list when the
scope is a list; a handle scoped to a single serial-number string returns
that string's character count (len of the string, not the size of a
one-device set); an unscoped handle raises a TypeError (len of None)
instead of querying a fresh enumeration. -/
theorem adb_len_spec (a : AdbHandle) :
    (∀ l, a.serialnos = .listArg l → Adb.len a = .ok l.length) ∧
    (∀ s, a.serialnos = .scalar s → Adb.len a = .ok s.length) ∧
    (a.serialnos = .noneArg → Adb.len a = .error .typeError) := by
  refine ⟨fun l hl => ?_, fun s hs => ?_, fun h => ?_⟩
  · simp [Adb.len, hl]
  · simp [Adb.len, hs]
  · simp [Adb.len, h]

/-- Witness for the amended C5: a handle scoped to a two-device list has
length two, a handle scoped to the string ABC123 has length six, and an
unscoped handle raises a TypeError. -/
theorem adb_len_spec_witness :
    Adb.len ⟨.listArg ["A".data, "B".data], []⟩ = .ok 2 ∧
    Adb.len ⟨.scalar "ABC123".data, []⟩ = .ok 6 ∧
    Adb.len ⟨.noneArg, []⟩ = .error .typeError := by
  exact ⟨(adb_len_spec ⟨.listArg ["A".data, "B".data], []⟩).1 _ rfl,
    (adb_len_spec ⟨.scalar "ABC123".data, []⟩).2.1 _ rfl,
    (adb_len_spec ⟨.noneArg, []⟩).2.2 rfl⟩

/-- C9: the single-device accessor raises when the enumeration holds more
than one device, and returns the device's identifier when the enumeration
holds exactly one. -/
theorem get_one_adb_serialno_spec (devices : List (Str × Str)) :
    (devices.length > 1 → get_one_adb_serialno devices = .error .exception) ∧
    ∀ s md, devices = [(s, md)] → get_one_adb_serialno devices = .ok s := by
  constructor
  · intro h
    have hlen : (devices.map Prod.fst).length > 1 := by simpa using h
    simp [get_one_adb_serialno, get_all_adb_serialno, adb_serialnos, hlen]
    intro hle
    exact absurd h (by omega)
  · intro s md h
    subst h
    rfl

/-- Witness for C9: two attached devices raise, one attached device
returns its serial number. -/
theorem get_one_adb_serialno_spec_witness :
    get_one_adb_serialno [("A".data, "d".data), ("B".data, "d".data)] = .error .exception ∧
    get_one_adb_serialno [("A".data, "d".data)] = .ok "A".data := by
  exact ⟨(get_one_adb_serialno_spec [("A".data, "d".data), ("B".data, "d".data)]).1 (by decide),
    (get_one_adb_serialno_spec [("A".data, "d".data)]).2 _ _ rfl⟩

/-- C10: the command a Shell operation hands the dispatcher, including
whether it is wrapped in su dash c, does not depend on the per-call
superuser keyword: the executor reads only its construction-time
superuser attribute. Stated for the single funnel every Shell operation
goes through (Shell.execute delegating to the executor's call) and for a
representative operation. -/
theorem shell_ignores_per_call_superuser :
    (∀ (su : Bool) (arg : Str) (lg : Option Str) (b b' : Option Bool),
      ShellExecutor.call su arg ⟨b, lg⟩ = ShellExecutor.call su arg ⟨b', lg⟩) ∧
    ∀ (su : Bool) (remote : Str) (lg : Option Str) (b b' : Option Bool),
      Shell.cat su remote ⟨b, lg⟩ = Shell.cat su remote ⟨b', lg⟩ := by
  constructor
  · intro su arg lg b b'
    cases su <;> cases lg <;> rfl
  · intro su remote lg b b'
    cases su <;> cases lg <;> rfl

/-- C6 counterexample: raw device-list output that lacks the expected
header line raises no ParseError: the enumerate operation silently drops
the first device line as if it were the header and returns a wrong
mapping. -/
theorem adb_devices_headerless_no_parse_error_cex :
    adb_devices "ABC123\tdevice\nDEF456\tdevice".data false
      = .ok [("DEF456".data, "device".data)] := by
  rfl

/-- C6 amended: the enumerate operation performs no header check at all;
it unconditionally discards the first line of the (stripped) output and
parses the remaining identifier-TAB-status lines into a mapping, so
headerless output yields a mapping missing its first device instead of a
ParseError. Stated for every well-formed headerless listing (identifiers
and statuses non-empty and whitespace-free). -/
theorem adb_devices_discards_first_line (ps : List (Str × Str))
    (hwf : ∀ p ∈ ps, p.1 ≠ [] ∧ p.2 ≠ [] ∧
      (∀ c ∈ p.1, pyIsSpace c = false) ∧ (∀ c ∈ p.2, pyIsSpace c = false)) :
    adb_devices (joinWith '\n' (ps.map lineOf)) false = .ok (pyDict (ps.drop 1)) := by
  cases hps : ps with
  | nil => rfl
  | cons p0 rest =>
  subst hps
  have hparse : pySplitlines (pyStrip (joinWith '\n' ((p0 :: rest).map lineOf)))
      = (p0 :: rest).map lineOf := by
    refine parse_lines ?_ ?_ ?_ ?_
    · intro l hl
      obtain ⟨p, _, rfl⟩ := List.mem_map.mp hl
      exact lineOf_ne_nil p
    · intro l hl
      obtain ⟨p, hp, rfl⟩ := List.mem_map.mp hl
      exact newline_not_mem_lineOf (hwf p hp).2.2.1 (hwf p hp).2.2.2
    · intro l hl c hc
      have hl0 : l = lineOf p0 := by simpa using hl.symm
      subst hl0
      have h0 := hwf p0 (List.mem_cons_self _ _)
      rw [lineOf_head? h0.1] at hc
      exact h0.2.2.1 c (List.mem_of_mem_head? (by simpa using hc))
    · intro l hl c hc
      rw [List.getLast?_map] at hl
      obtain ⟨pl, hpl, rfl⟩ := Option.map_eq_some'.mp hl
      have hmem : pl ∈ p0 :: rest := List.mem_of_getLast?_eq_some hpl
      have hw := hwf pl hmem
      rw [lineOf_getLast? hw.2.1] at hc
      exact hw.2.2.2 c (List.mem_of_getLast?_eq_some hc)
  have htab : ∀ p ∈ (p0 :: rest).drop 1, '\t' ∉ p.1 ∧ '\t' ∉ p.2 := by
    intro p hp
    have hw := hwf p (List.drop_subset _ _ hp)
    exact ⟨tab_not_mem_of_nonspace hw.2.2.1, tab_not_mem_of_nonspace hw.2.2.2⟩
  simp only [adb_devices, hparse, Bool.false_eq_true, if_false, ← List.map_drop]
  rw [mapExcept_lineOf htab]

/-- Witness for the amended C6: a two-device listing without a header
parses to the mapping of its second line only, with no error. -/
theorem adb_devices_discards_first_line_witness :
    adb_devices (joinWith '\n' ([(("ABC123".data : Str), ("device".data : Str)),
        ("DEF456".data, "device".data)].map lineOf)) false
      = .ok [("DEF456".data, "device".data)] := by
  have h := adb_devices_discards_first_line
    [("ABC123".data, "device".data), ("DEF456".data, "device".data)] (by decide)
  rw [h]
  rfl

/-- C7 counterexample: the online filter tests the whole line, not the
status field: an online device (status "device") whose identifier contains
the substring "offline" is excluded, although the claim requires it to be
kept. -/
theorem adb_devices_filter_hits_identifier_cex :
    adb_devices "List of devices attached\nofflineSERIAL\tdevice".data true = .ok [] ∧
    adb_devices "List of devices attached\nofflineSERIAL\tdevice".data false
      = .ok [("offlineSERIAL".data, "device".data)] := by
  exact ⟨rfl, rfl⟩

/-- C7 amended: enumerate with online-only filtering excludes an entry
exactly when its whole identifier-TAB-status line contains the substring
"offline" (so an identifier containing "offline" is also excluded); in
particular the concrete listing of the claim yields the ABC123 entry
only. -/
theorem adb_devices_online_filter :
    adb_devices "List of devices attached\nABC123\tdevice\nDEF456\toffline\n".data true
      = .ok [("ABC123".data, "device".data)] ∧
    ∀ ps : List (Str × Str),
      (∀ p ∈ ps, (∀ c ∈ p.1, pyIsSpace c = false) ∧ (∀ c ∈ p.2, pyIsSpace c = false) ∧
        p.2 ≠ []) →
      adb_devices (deviceListing ps) true
        = .ok (pyDict (ps.filter ((fun l => !(strContains offlineStr l)) ∘ lineOf))) := by
  refine ⟨by rfl, fun ps hwf => ?_⟩
  cases hps : ps with
  | nil => rfl
  | cons p0 rest =>
  subst hps
  have hparse : pySplitlines (pyStrip (joinWith '\n' (headerStr :: (p0 :: rest).map lineOf)))
      = headerStr :: (p0 :: rest).map lineOf := by
    refine parse_lines ?_ ?_ ?_ ?_
    · intro l hl
      rcases List.mem_cons.mp hl with h | h
      · subst h; decide
      · obtain ⟨p, _, rfl⟩ := List.mem_map.mp h
        exact lineOf_ne_nil p
    · intro l hl
      rcases List.mem_cons.mp hl with h | h
      · subst h; decide
      · obtain ⟨p, hp, rfl⟩ := List.mem_map.mp h
        exact newline_not_mem_lineOf (hwf p hp).1 (hwf p hp).2.1
    · intro l hl c hc
      have hl0 : l = headerStr := by simpa using hl.symm
      subst hl0
      rw [show headerStr.head? = some 'L' from rfl] at hc
      injection hc with hc
      subst hc
      decide
    · intro l hl c hc
      rw [List.map_cons, List.getLast?_cons_cons, ← List.map_cons, List.getLast?_map] at hl
      obtain ⟨pl, hpl, rfl⟩ := Option.map_eq_some'.mp hl
      have hw := hwf pl (List.mem_of_getLast?_eq_some hpl)
      rw [lineOf_getLast? hw.2.2] at hc
      exact hw.2.1 c (List.mem_of_getLast?_eq_some hc)
  have htab : ∀ p ∈ (p0 :: rest).filter ((fun l => !(strContains offlineStr l)) ∘ lineOf),
      '\t' ∉ p.1 ∧ '\t' ∉ p.2 := by
    intro p hp
    have hw := hwf p (List.mem_filter.mp hp).1
    exact ⟨tab_not_mem_of_nonspace hw.1, tab_not_mem_of_nonspace hw.2.1⟩
  simp only [adb_devices, deviceListing, hparse]
  simp only [List.drop_succ_cons, List.drop_zero, if_true]
  rw [List.filter_map]
  rw [mapExcept_lineOf htab]

/-- Witness for the amended C7: a listing with one online and one offline
device keeps only the online entry. -/
theorem adb_devices_online_filter_witness :
    adb_devices (deviceListing [(("ABC".data : Str), ("device".data : Str)),
        ("DEF".data, "offline".data)]) true
      = .ok [("ABC".data, "device".data)] := by
  have h := adb_devices_online_filter.2
    [("ABC".data, "device".data), ("DEF".data, "offline".data)] (by decide)
  rw [h]
  rfl

/-- C8 counterexample: the claimed iff fails. remotepath("/..") normalizes
to "/", which ends with a slash although the stripped input "/.." does
not; likewise remotepath("a" backslash) ends with a slash although the
stripped input ends with a backslash, not a forward slash. -/
theorem remotepath_trailing_slash_iff_cex :
    (remotepath "/..".data).getLast? = some '/' ∧
    (pyStrip "/..".data).getLast? ≠ some '/' ∧
    (remotepath "a\\".data).getLast? = some '/' ∧
    (pyStrip "a\\".data).getLast? ≠ some '/' := by
  refine ⟨rfl, by decide, rfl, by decide⟩

/-- C8 amended: remotepath preserves the trailing slash on "a/b/" and adds
none on "a/b"; in general the output ends with a slash if and only if the
stripped, backslash-normalized input ends with a slash or the normalized
path is a root path ("/" or "//", which posixpath.normpath produces with a
trailing slash even for slash-free inputs such as "/.."). -/
theorem remotepath_trailing_slash :
    remotepath "a/b/".data = "a/b/".data ∧ remotepath "a/b".data = "a/b".data ∧
    ∀ r : Str, (remotepath r).getLast? = some '/' ↔
      ((slashNormalize r).getLast? = some '/' ∨ normpath (slashNormalize r) = ['/'] ∨
        normpath (slashNormalize r) = ['/', '/']) := by
  refine ⟨rfl, rfl, fun r => ?_⟩
  unfold remotepath
  by_cases hs : (slashNormalize r).getLast? = some '/'
  · rw [if_pos hs]
    simp only [List.getLast?_concat]
    exact ⟨fun _ => Or.inl hs, fun _ => trivial⟩
  · rw [if_neg hs]
    rw [normpath_getLast?_slash_iff]
    constructor
    · intro h
      exact Or.inr h
    · rintro (h | h)
      · exact absurd h hs
      · exact h

end Adbpy
